import Mathlib

/-!
Verification of the session-reconciliation core of the claude-orchestra
dashboard.  The definitions below are a shallow embedding of the TypeScript
sources:

* `src/sessions.ts`  — session assembly, cache, liveness filter, dedup, sort;
* `src/hooks.ts`     — working/idle classification and notification diffing;
* `src/notify.ts`    — notification dedup window and queueing;
* `src/platform.ts`  — CPU-busyness probe and home-path encoding.

Times are modelled as `Int` (milliseconds, as produced by `Date.now()`),
byte sizes as `Nat`, CPU percentages as `Rat`.  JavaScript `Map`s are
modelled as insertion-ordered association lists; `Set` iteration order is
list order.  External effects (file reads, `JSON.parse`, `Date` parsing,
process probing) enter as explicit data or oracle arguments.
-/

namespace Orchestra

/-! ### Constants (src/constants.ts and src/sessions.ts, src/hooks.ts) -/

/-- `MAX_TAIL_BYTES` in sessions.ts: 512KB. -/
def MAX_TAIL_BYTES : Nat := 524288

/-- `ACTIVE_WINDOW_MS` in sessions.ts: 4 hours. -/
def ACTIVE_WINDOW_MS : Int := 4 * 60 * 60 * 1000

/-- `MAX_ENTRIES_PER_SESSION` in sessions.ts. -/
def MAX_ENTRIES_PER_SESSION : Nat := 60

/-- `CLOSED_GRACE_MS` in sessions.ts: 1 minute. -/
def CLOSED_GRACE_MS : Int := 60 * 1000

/-- The fresh-working threshold used literally (`60_000`) in `doRefresh`
(src/hooks.ts). -/
def FRESH_WORKING_MS : Int := 60000

/-- The upper bound (`180_000`) of the intermediate classification window in
`doRefresh` (src/hooks.ts). -/
def RECENT_WINDOW_MS : Int := 180000

/-- `NOTIFICATION_DEDUP_MS` in constants.ts: 30 seconds. -/
def NOTIFICATION_DEDUP_MS : Int := 30000

/-! ### Insertion-ordered association maps (JavaScript `Map`) -/

/-- JS `Map.get`: first binding of the key, if any. -/
def mapGet {α : Type} (m : List (String × α)) (k : String) : Option α :=
  (m.find? (fun e => e.1 = k)).map (fun e => e.2)

/-- JS `Map.set`: update the existing binding in place, else append. -/
def mapSet {α : Type} (m : List (String × α)) (k : String) (v : α) :
    List (String × α) :=
  if (m.find? (fun e => e.1 = k)).isSome then
    m.map (fun e => if e.1 = k then (k, v) else e)
  else
    m ++ [(k, v)]

/-! ### Session data model (src/types.ts) -/

/-- `SessionEntry.type` values. -/
inductive EntryType where
  | user
  | assistant
  | tool_use
deriving DecidableEq, Repr

/-- `SessionEntry` in types.ts. -/
structure SessionEntry where
  type : EntryType
  timestamp : Int
  text : String
  toolName : Option String := none
deriving DecidableEq, Repr

/-- `ActiveSession` in types.ts (with `startedMs`, as populated by
`findActiveSessions` in sessions.ts). -/
structure ActiveSession where
  sessionId : String
  project : String
  jsonlPath : String
  lastActivityMs : Int
  startedMs : Int
  cwd : Option String
  model : Option String
  entries : List SessionEntry
deriving DecidableEq, Repr

/-! ### CWD matching and the liveness filter (src/sessions.ts) -/

/-- `findMatchingRunningCwd` in sessions.ts.  Exact membership first, then a
path-containment scan over the running-CWD set (in iteration order). -/
def findMatchingRunningCwd (sessionCwd : String) (runningCwds : List String) :
    Option String :=
  if sessionCwd ∈ runningCwds then some sessionCwd
  else
    runningCwds.find? (fun cwd =>
      (cwd ++ "/").isPrefixOf sessionCwd || (sessionCwd ++ "/").isPrefixOf cwd)

/-- The `alive` filter predicate inside `findActiveSessions`
(src/sessions.ts lines 270–286). -/
def keepAlive (now2 : Int) (runningCwds : List String) (isWindows : Bool)
    (s : ActiveSession) : Bool :=
  let idleMs := now2 - s.lastActivityMs
  if isWindows then
    if runningCwds.length > 0 && decide (idleMs < 60 * 60 * 1000) then true
    else decide (idleMs < CLOSED_GRACE_MS)
  else
    match s.cwd with
    | some c =>
        if (findMatchingRunningCwd c runningCwds).isSome then true
        else decide (idleMs < CLOSED_GRACE_MS)
    | none => decide (idleMs < CLOSED_GRACE_MS)

/-- The matched running CWD of a session, as computed twice inside
`findActiveSessions` (`s.cwd ? findMatchingRunningCwd(s.cwd, runningCwds) :
null`). -/
def matchedRunningCwd (runningCwds : List String) (s : ActiveSession) :
    Option String :=
  s.cwd.bind (fun c => findMatchingRunningCwd c runningCwds)

/-- The dedup pass of `findActiveSessions` (lines 292–301): a filter with a
`cwdSeen` occurrence counter threaded through, bounded per matched CWD by
`cwdCounts.get(matchedCwd) ?? 1`. -/
def dedupeByCwd (runningCwds : List String) (cwdCounts : List (String × Nat))
    (cwdSeen : List (String × Nat)) : List ActiveSession → List ActiveSession
  | [] => []
  | s :: rest =>
    match matchedRunningCwd runningCwds s with
    | none => s :: dedupeByCwd runningCwds cwdCounts cwdSeen rest
    | some matchedCwd =>
        let seen := (mapGet cwdSeen matchedCwd).getD 0 + 1
        let cwdSeen' := mapSet cwdSeen matchedCwd seen
        if seen ≤ (mapGet cwdCounts matchedCwd).getD 1 then
          s :: dedupeByCwd runningCwds cwdCounts cwdSeen' rest
        else
          dedupeByCwd runningCwds cwdCounts cwdSeen' rest

/-- Comparator of the pre-dedup sort: `(a, b) => b.lastActivityMs -
a.lastActivityMs` (descending recency; JS `sort` is stable, modelled by
stable insertion sort). -/
def recencyGE (a b : ActiveSession) : Prop :=
  b.lastActivityMs ≤ a.lastActivityMs

instance : DecidableRel recencyGE := fun a b =>
  inferInstanceAs (Decidable (b.lastActivityMs ≤ a.lastActivityMs))

/-- Comparator of the final sort: `a.startedMs - b.startedMs ||
a.sessionId.localeCompare(b.sessionId)` (ascending start time, ties broken
by id). -/
def startThenId (a b : ActiveSession) : Prop :=
  a.startedMs < b.startedMs ∨ (a.startedMs = b.startedMs ∧ a.sessionId ≤ b.sessionId)

instance : DecidableRel startThenId := fun a b =>
  inferInstanceAs
    (Decidable (a.startedMs < b.startedMs ∨
      (a.startedMs = b.startedMs ∧ a.sessionId ≤ b.sessionId)))

/-- The retained (post-`alive`-filter), recency-sorted session list of
`findActiveSessions`. -/
def aliveSorted (sessions : List ActiveSession) (now2 : Int)
    (runningCwds : List String) (isWindows : Bool) : List ActiveSession :=
  List.insertionSort recencyGE
    (sessions.filter (keepAlive now2 runningCwds isWindows))

/-- The deduped session list of `findActiveSessions` (before the final
sort). -/
def dedupedSessions (sessions : List ActiveSession) (now2 : Int)
    (runningCwds : List String) (cwdCounts : List (String × Nat))
    (isWindows : Bool) : List ActiveSession :=
  dedupeByCwd runningCwds cwdCounts [] (aliveSorted sessions now2 runningCwds isWindows)

/-- The filter → sort → dedup → sort tail of `findActiveSessions`
(src/sessions.ts lines 266–304), as a function of the assembled sessions and
this cycle's liveness signal. -/
def filterDedupSort (sessions : List ActiveSession) (now2 : Int)
    (runningCwds : List String) (cwdCounts : List (String × Nat))
    (isWindows : Bool) : List ActiveSession :=
  List.insertionSort startThenId
    (dedupedSessions sessions now2 runningCwds cwdCounts isWindows)

/-! ### JavaScript values and string helpers

`JSON.parse` output is modelled by the inductive `Json`; a thrown parse error
is `Option.none` at the use site.  JS strings are Lean `String`s; `slice`,
`trim`, `split`, `startsWith` are modelled over the character list. -/

inductive Json where
  | null
  | bool (b : Bool)
  | num (n : Int)
  | str (s : String)
  | arr (elems : List Json)
  | obj (fields : List (String × Json))

/-- JS property access `v.k` (undefined is `none`). -/
def jget (v : Json) (k : String) : Option Json :=
  match v with
  | .obj fields => mapGet fields k
  | _ => none

/-- JS truthiness of a defined value. -/
def truthy : Json → Bool
  | .null => false
  | .bool b => b
  | .num n => n ≠ 0
  | .str s => s ≠ ""
  | .arr _ => true
  | .obj _ => true

/-- `typeof v === 'string' ? v : undefined`. -/
def asString : Json → Option String
  | .str s => some s
  | _ => none

/-- `Array.isArray(v) ? elems : undefined`. -/
def asArray : Json → Option (List Json)
  | .arr xs => some xs
  | _ => none

mutual

/-- JS `String(v)`. -/
def jsToString : Json → String
  | .null => "null"
  | .bool b => if b then "true" else "false"
  | .num n => toString n
  | .str s => s
  | .arr xs => jsArrJoin xs
  | .obj _ => "[object Object]"

/-- JS `Array.prototype.toString` (join with commas; `null` renders empty). -/
def jsArrJoin : List Json → String
  | [] => ""
  | [Json.null] => ""
  | [x] => jsToString x
  | Json.null :: xs => "," ++ jsArrJoin xs
  | x :: xs => jsToString x ++ "," ++ jsArrJoin xs

end

/-- JS `s.slice(0, n)` (also `s.length` is char count). -/
def jsSliceTo (s : String) (n : Nat) : String := ⟨s.data.take n⟩

/-- JS `s.slice(n)`. -/
def jsSliceFrom (s : String) (n : Nat) : String := ⟨s.data.drop n⟩

/-- JS `s.length`. -/
def jsLength (s : String) : Nat := s.data.length

/-- JS `s.startsWith(p)`. -/
def jsStartsWith (s p : String) : Bool := p.data.isPrefixOf s.data

def isJsWhitespace (c : Char) : Bool :=
  c = ' ' || c = '\t' || c = '\n' || c = '\r'

/-- JS `s.trim()` (over the common whitespace characters). -/
def jsTrim (s : String) : String :=
  ⟨((s.data.dropWhile isJsWhitespace).reverse.dropWhile isJsWhitespace).reverse⟩

def splitCharAux (sep : Char) : List Char → List Char → List String
  | [], acc => [⟨acc.reverse⟩]
  | c :: cs, acc =>
    if c = sep then ⟨acc.reverse⟩ :: splitCharAux sep cs []
    else splitCharAux sep cs (c :: acc)

/-- JS `s.split(sep)` for a single-character separator. -/
def splitChar (sep : Char) (s : String) : List String :=
  splitCharAux sep s.data []

/-- JS `arr.join(sep)` for an array of strings. -/
def jsJoin (sep : String) : List String → String
  | [] => ""
  | [x] => x
  | x :: y :: xs => x ++ sep ++ jsJoin sep (y :: xs)

/-! ### Project name encoding (src/platform.ts, src/sessions.ts) -/

/-- JS `s.replace(/\./g, '-')`. -/
def replaceDots (s : String) : String :=
  ⟨s.data.map (fun c => if c = '.' then '-' else c)⟩

/-- `encodeHomePath` of the Darwin and Linux adapters (src/platform.ts):
`'-' + home.split('/').filter(Boolean).join('-').replace(/\./g, '-')`
(`filter(Boolean)` keeps the non-empty segments). -/
def encodeHomePath (home : String) : String :=
  "-" ++ replaceDots (jsJoin "-" ((splitChar '/' home).filter (fun p => p ≠ "")))

/-- `decodeProjectName` (src/sessions.ts), with the module-level
`HOME_ENCODED` passed explicitly. -/
def decodeProjectName (homeEncoded encoded : String) : String :=
  if encoded = homeEncoded then "~"
  else if jsStartsWith encoded (homeEncoded ++ "-") then
    jsSliceFrom encoded (jsLength homeEncoded + 1)
  else encoded

/-! ### Liveness probe (src/platform.ts) -/

/-- One entry of the Darwin/Linux liveness process cache
(`getLivenessProcesses`): pid, resolved CWD, CPU percentage. -/
structure LiveProc where
  pid : Nat
  cwd : String
  cpu : Rat
deriving DecidableEq, Repr

/-- `isSessionProcessBusy` of the Darwin and Linux adapters
(src/platform.ts): exact-CWD lookup in the liveness process list, CPU above
1.0%. -/
def isSessionProcessBusy (procs : List LiveProc) (cwd : String) : Bool :=
  match procs.find? (fun p => p.cwd = cwd) with
  | some p => decide ((1 : Rat) < p.cpu)
  | none => false

/-! ### Working/idle classification (src/hooks.ts, `doRefresh`) -/

/-- The `nowWorking` membership test of `doRefresh` (src/hooks.ts lines
151–164): fresh writes are working unconditionally; in the 60–180 s window a
trailing tool-use entry or a busy process counts as working; past 180 s only
a busy process does. -/
def classifyWorking (now : Int) (procs : List LiveProc) (s : ActiveSession) : Bool :=
  let age := now - s.lastActivityMs
  if age < FRESH_WORKING_MS then true
  else if age ≤ RECENT_WINDOW_MS then
    match s.entries.getLast? with
    | some last =>
      if last.type = EntryType.tool_use then true
      else
        match s.cwd with
        | some c => isSessionProcessBusy procs c
        | none => false
    | none =>
      match s.cwd with
      | some c => isSessionProcessBusy procs c
      | none => false
  else
    match s.cwd with
    | some c => isSessionProcessBusy procs c
    | none => false

/-! ### JSONL line parsing (src/sessions.ts, `parseLine`)

`new Date(v).getTime()` is an external JS primitive; it enters as the oracle
`dateParse : Json → Option Int`, where `none` models `NaN` (an invalid
date). -/

/-- Result record of `parseLine`. -/
structure ParsedLine where
  entries : List SessionEntry
  cwd : Option String := none
  model : Option String := none
deriving DecidableEq, Repr

/-- `raw.timestamp ? new Date(raw.timestamp).getTime() : 0` — the timestamp
value computed at the top of `parseLine`.  `none` models `NaN`. -/
def computeTs (dateParse : Json → Option Int) (raw : Json) : Option Int :=
  match jget raw "timestamp" with
  | some v => if truthy v then dateParse v else some 0
  | none => some 0

/-- The tool-use description built for one `tool_use` block: the tool name
plus the first truthy of `input.command/file_path/pattern/query/url`. -/
def toolUseDesc (name : String) (input : Option Json) : String :=
  let fieldVal := fun (k : String) =>
    match input with
    | some inp => match jget inp k with
      | some v => if truthy v then some v else none
      | none => none
    | none => none
  match fieldVal "command" with
  | some v => name ++ ": " ++ jsSliceTo (jsToString v) 120
  | none =>
    match fieldVal "file_path" with
    | some v => name ++ ": " ++ jsToString v
    | none =>
      match fieldVal "pattern" with
      | some v => name ++ ": " ++ jsToString v
      | none =>
        match fieldVal "query" with
        | some v => name ++ ": " ++ jsSliceTo (jsToString v) 80
        | none =>
          match fieldVal "url" with
          | some v => name ++ ": " ++ jsSliceTo (jsToString v) 80
          | none => name

/-- The entries produced for one content block of an assistant record. -/
def assistantBlockEntries (ts : Int) (block : Json) : List SessionEntry :=
  let textEntry :=
    if (jget block "type").bind asString = some "text" then
      match (jget block "text").bind asString with
      | some t => if jsLength (jsTrim t) > 0 then
          [⟨EntryType.assistant, ts, jsSliceTo (jsTrim t) 2000, none⟩] else []
      | none => []
    else []
  let toolEntry :=
    if (jget block "type").bind asString = some "tool_use" then
      match (jget block "name").bind asString with
      | some n => [⟨EntryType.tool_use, ts, toolUseDesc n (jget block "input"), some n⟩]
      | none => []
    else []
  textEntry ++ toolEntry

/-- `parseLine` (src/sessions.ts lines 36–84).  The input is the result of
`JSON.parse` on the line: `none` when parsing threw (the `catch` branch).
Total by construction — the JS function never throws. -/
def parseLine (dateParse : Json → Option Int) (line : Option Json) : ParsedLine :=
  match line with
  | none => { entries := [] }
  | some raw =>
    match computeTs dateParse raw with
    | none => { entries := [] }
    | some ts =>
      if ts = 0 then { entries := [] }
      else
        let cwd := (jget raw "cwd").bind asString
        let msgContent := (jget raw "message").bind (fun m => jget m "content")
        if (jget raw "type").bind asString = some "user" ∧
            (msgContent.bind asString).isSome then
          match msgContent.bind asString with
          | some text =>
            if jsLength text < 2 then { entries := [], cwd := cwd }
            else { entries := [⟨EntryType.user, ts, jsSliceTo text 2000, none⟩], cwd := cwd }
          | none => { entries := [], cwd := cwd }
        else if (jget raw "type").bind asString = some "user" ∧
            (msgContent.bind asArray).isSome then
          { entries := [], cwd := cwd }
        else if (jget raw "type").bind asString = some "assistant" ∧
            (msgContent.bind asArray).isSome then
          match msgContent.bind asArray with
          | some blocks =>
            { entries := blocks.flatMap (assistantBlockEntries ts),
              cwd := cwd,
              model := ((jget raw "message").bind (fun m => jget m "model")).bind asString }
          | none => { entries := [], cwd := cwd }
        else { entries := [], cwd := cwd }

/-! ### Notification dedup and queueing (src/notify.ts) -/

/-- `NotificationEvent.type` values. -/
inductive EventKind where
  | task_completed
  | agent_idle
  | new_message
  | needs_input
deriving DecidableEq, Repr

/-- `NotificationEvent` (src/types.ts), with the optional `telegramBody`
attached by the differ in hooks.ts. -/
structure NotificationEvent where
  type : EventKind
  title : String
  body : String
  dedupeKey : String
  telegramBody : Option String := none
deriving DecidableEq, Repr

/-- An element of the serialized dispatch queue in notify.ts. -/
structure QueueItem where
  title : String
  body : String
  sound : Bool
deriving DecidableEq, Repr

/-- The module-level mutable state of notify.ts: the `recentNotifications`
recency map, the dispatch `queue`, and the `enabled` flag.  (`pending` and
the external `execFile` dispatch are outside the model; the queue records
what was dispatched.) -/
structure NotifyState where
  recent : List (String × Int)
  queue : List QueueItem
  enabled : Bool
deriving DecidableEq, Repr

/-- `isDuplicate` (src/notify.ts lines 20–32), returning the flag and the
updated recency map.  `last &&` makes a stored timestamp `0` act as absent.
On the non-duplicate path entries older than twice the window are evicted
and the key is stamped with `now`. -/
def isDuplicate (now : Int) (key : String) (recent : List (String × Int)) :
    Bool × List (String × Int) :=
  match mapGet recent key with
  | some last =>
    if last ≠ 0 ∧ now - last < NOTIFICATION_DEDUP_MS then (true, recent)
    else
      (false,
        mapSet (recent.filter (fun e => ¬ (now - e.2 > NOTIFICATION_DEDUP_MS * 2))) key now)
  | none =>
      (false,
        mapSet (recent.filter (fun e => ¬ (now - e.2 > NOTIFICATION_DEDUP_MS * 2))) key now)

/-- `sendNotification` (src/notify.ts lines 79–86) acting on the module
state. -/
def sendNotification (now : Int) (event : NotificationEvent) (st : NotifyState) :
    NotifyState :=
  if ¬ st.enabled then st
  else if (isDuplicate now event.dedupeKey st.recent).1 then
    { st with recent := (isDuplicate now event.dedupeKey st.recent).2 }
  else
    { st with
      recent := (isDuplicate now event.dedupeKey st.recent).2,
      queue := st.queue ++
        [⟨event.title, event.body,
          event.type == EventKind.agent_idle || event.type == EventKind.needs_input⟩] }

/-! ### Sibling domain data (src/types.ts) used by the notification differ -/

inductive TaskStatus where
  | pending
  | in_progress
  | completed
deriving DecidableEq, Repr

/-- `Task` (src/types.ts). -/
structure Task where
  id : String
  subject : String
  description : String
  activeForm : String
  owner : Option String
  status : TaskStatus
  blocks : List String
  blockedBy : List String
  teamName : String
deriving DecidableEq, Repr

/-- `TaskGroup` (src/types.ts). -/
structure TaskGroup where
  teamName : String
  tasks : List Task
  completed : Nat
  total : Nat
deriving DecidableEq, Repr

/-- `Message.parsedType` discriminants (src/types.ts). -/
inductive ParsedType where
  | text
  | idle_notification
  | task_assignment
  | shutdown_request
  | plan_approval_request
deriving DecidableEq, Repr

/-- `Message` (src/types.ts); the discriminated union is flattened, with the
variant payloads optional.  `from` is a Lean keyword, hence `from_`. -/
structure Message where
  from_ : String
  text : String
  summary : String
  timestamp : Int
  read : Bool
  teamName : String
  parsedType : ParsedType
  agentName : Option String := none
  taskId : Option String := none
  assignee : Option String := none
  requestId : Option String := none
deriving DecidableEq, Repr

/-- The snapshot fields consumed by the notification differ
(`Omit<DataState, 'loading'>` restricted to `sessions`, `taskGroups`,
`messages`; `teams` and `stats` are never read by it). -/
structure Snapshot where
  sessions : List ActiveSession
  taskGroups : List TaskGroup
  messages : List Message
deriving DecidableEq, Repr

/-! ### Notification diffing (src/hooks.ts) -/

/-- The `teamName:id` keys of completed tasks (the `prevTaskIds` set). -/
def completedTaskKeys (groups : List TaskGroup) : List String :=
  groups.flatMap (fun g =>
    (g.tasks.filter (fun t => t.status = TaskStatus.completed)).map
      (fun t => g.teamName ++ ":" ++ t.id))

/-- Newly completed task events (hooks.ts lines 54–75). -/
def taskCompletedEvents (prev next : List TaskGroup) : List NotificationEvent :=
  let prevKeys := completedTaskKeys prev
  next.flatMap (fun g =>
    g.tasks.filterMap (fun t =>
      if t.status = TaskStatus.completed ∧ (g.teamName ++ ":" ++ t.id) ∉ prevKeys then
        some { type := EventKind.task_completed,
               title := "Task Completed",
               body := jsSliceTo t.subject 100,
               dedupeKey := "task_completed:" ++ (g.teamName ++ ":" ++ t.id) }
      else none))

/-- New-assistant-output events (hooks.ts lines 77–97).  `lastText` is the
external `readLastAssistantText` file read. -/
def newMessageEvents (lastText : String → Option String)
    (prev next : List ActiveSession) : List NotificationEvent :=
  let prevSizes := prev.foldl (fun m s => mapSet m s.sessionId s.entries.length) []
  next.filterMap (fun s =>
    let prevSize := (mapGet prevSizes s.sessionId).getD 0
    if s.entries.length > prevSize ∧ prevSize > 0 then
      match s.entries.getLast? with
      | some lastEntry =>
        if lastEntry.type = EntryType.assistant then
          some { type := EventKind.new_message,
                 title := "Session: " ++ s.project,
                 body := jsSliceTo lastEntry.text 100,
                 dedupeKey := "session:" ++ s.sessionId ++ ":" ++ toString lastEntry.timestamp,
                 telegramBody := lastText s.jsonlPath }
        else none
      | none => none
    else none)

/-- Whether a message requires input (plan approval or shutdown request). -/
def needsInputMsg (m : Message) : Prop :=
  m.parsedType = ParsedType.plan_approval_request ∨
    m.parsedType = ParsedType.shutdown_request

instance : DecidablePred needsInputMsg := fun m =>
  inferInstanceAs (Decidable (_ ∨ _))

/-- The `teamName:from:timestamp` key of a message. -/
def msgKey (m : Message) : String :=
  m.teamName ++ ":" ++ m.from_ ++ ":" ++ toString m.timestamp

/-- Awaiting-input events (hooks.ts lines 99–119). -/
def needsInputEvents (prev next : List Message) : List NotificationEvent :=
  let prevKeys := (prev.filter needsInputMsg).map msgKey
  next.filterMap (fun m =>
    if needsInputMsg m ∧ msgKey m ∉ prevKeys then
      some { type := EventKind.needs_input,
             title := "Awaiting the Maestro",
             body :=
               if m.parsedType = ParsedType.plan_approval_request then
                 m.from_ ++ " awaits your approval on a plan, Maestro"
               else m.from_ ++ " requests permission to leave the stage",
             dedupeKey := "needs_input:" ++ msgKey m }
    else none)

/-- `computeNotifications` (src/hooks.ts lines 47–122): with no prior
snapshot no transition events fire; otherwise the three diff passes run in
order. -/
def computeNotifications (lastText : String → Option String)
    (prev : Option Snapshot) (next : Snapshot) : List NotificationEvent :=
  match prev with
  | none => []
  | some p =>
    taskCompletedEvents p.taskGroups next.taskGroups ++
      newMessageEvents lastText p.sessions next.sessions ++
      needsInputEvents p.messages next.messages

/-- The agent-idle event built in `doRefresh`:
`s.cwd?.split('/').pop() ?? s.project` as label, minute-bucketed dedupe
key. -/
def mkIdleEvent (s : ActiveSession) : NotificationEvent :=
  let label :=
    match s.cwd with
    | some c => (splitChar '/' c).getLastD ""
    | none => s.project
  { type := EventKind.agent_idle,
    title := "Awaiting the Maestro",
    body := label ++ " awaits your direction, Maestro",
    dedupeKey := "idle:" ++ s.sessionId ++ ":" ++ toString (Int.fdiv s.lastActivityMs 60000) }

/-- The full event list assembled by one `doRefresh` pass (src/hooks.ts
lines 144–198): the snapshot diff, then working→idle transition events from
the persistent `workingSessionsRef`, then first-sighting idle events gated
by `isFirstRefresh` and `knownSessionsRef`. -/
def refreshEvents (lastText : String → Option String) (prev : Option Snapshot)
    (next : Snapshot) (now : Int) (procs : List LiveProc)
    (workingPrev : List String) (knownSessions : List String)
    (isFirstRefresh : Bool) : List NotificationEvent :=
  let events := computeNotifications lastText prev next
  let nowWorking := (next.sessions.filter (classifyWorking now procs)).map
    (fun s => s.sessionId)
  let idleTransitions := workingPrev.filterMap (fun id =>
    if id ∈ nowWorking then none
    else (next.sessions.find? (fun s => s.sessionId = id)).map mkIdleEvent)
  let newlySeenIdle := next.sessions.filterMap (fun s =>
    if ¬ isFirstRefresh ∧ s.sessionId ∉ nowWorking ∧ s.sessionId ∉ knownSessions then
      some (mkIdleEvent s)
    else none)
  events ++ idleTransitions ++ newlySeenIdle

/-! ### File enumeration and the parse cache (src/sessions.ts,
`findActiveSessions` main loop)

File-system reads are external: each candidate carries its `stat` result and
the lines obtained by the `tailFile` read.  A line carries its blankness
(`!line.trim()`) and its `JSON.parse` result. -/

/-- The `statSync` fields consumed by `findActiveSessions`. -/
structure FileStat where
  size : Nat
  mtimeMs : Int
  birthtimeMs : Int
deriving DecidableEq, Repr

/-- One line of the tail read. -/
structure RawLine where
  blank : Bool
  parsed : Option Json

/-- One `.jsonl` candidate inside a project directory. -/
structure CandidateFile where
  fileName : String
  stat : FileStat
  tailLines : List RawLine

/-- One value of the `SessionCache` map (src/sessions.ts line 15). -/
structure CacheEntry where
  size : Nat
  mtime : Int
  birthtime : Int
  entries : List SessionEntry
  cwd : Option String := none
  model : Option String := none
deriving DecidableEq, Repr

/-- `SessionCache`, keyed by file path. -/
def SessionCache : Type := List (String × CacheEntry)

/-- JS `s.endsWith(suffix)`. -/
def jsEndsWith (s suffix : String) : Bool := suffix.data.isSuffixOf s.data

/-- `basename(file, '.jsonl')`: strip the 6-character extension. -/
def basenameJsonl (fileName : String) : String :=
  ⟨fileName.data.take (fileName.data.length - 6)⟩

/-- JS `arr.slice(-n)`: the last `n` elements. -/
def jsSliceLast {α : Type} (l : List α) (n : Nat) : List α :=
  l.drop (l.length - n)

/-- Accumulator of the line loop (`allEntries`, `lastCwd`, `lastModel`). -/
structure TailScan where
  allEntries : List SessionEntry
  lastCwd : Option String := none
  lastModel : Option String := none
deriving DecidableEq, Repr

/-- One iteration of the line loop (src/sessions.ts lines 234–240): blank
lines are skipped; `if (cwd) lastCwd = cwd` keeps truthy (non-empty) values
only. -/
def scanLineStep (dateParse : Json → Option Int) (st : TailScan) (l : RawLine) :
    TailScan :=
  if l.blank then st
  else
    let r := parseLine dateParse l.parsed
    { allEntries := st.allEntries ++ r.entries,
      lastCwd :=
        match r.cwd with
        | some c => if c ≠ "" then some c else st.lastCwd
        | none => st.lastCwd,
      lastModel :=
        match r.model with
        | some m => if m ≠ "" then some m else st.lastModel
        | none => st.lastModel }

def scanLines (dateParse : Json → Option Int) (lines : List RawLine) : TailScan :=
  lines.foldl (scanLineStep dateParse) {allEntries := []}

/-- The session record built on a cache hit (src/sessions.ts lines
208–217). -/
def sessionFromCache (filePath sessionId project : String) (stat : FileStat)
    (c : CacheEntry) : ActiveSession :=
  { sessionId := sessionId, project := project, jsonlPath := filePath,
    lastActivityMs := stat.mtimeMs, startedMs := c.birthtime,
    cwd := c.cwd, model := c.model, entries := c.entries }

/-- The re-tail/re-parse branch (src/sessions.ts lines 221–255): drop the
first partial line when the read began mid-file, scan, keep the last
`MAX_ENTRIES_PER_SESSION` entries, update the cache. -/
def processFileRead (dateParse : Json → Option Int)
    (filePath sessionId project : String) (cache : SessionCache)
    (f : CandidateFile) : Option ActiveSession × SessionCache × Bool :=
  let lines := if f.stat.size > MAX_TAIL_BYTES then f.tailLines.drop 1 else f.tailLines
  let scan := scanLines dateParse lines
  let entries := jsSliceLast scan.allEntries MAX_ENTRIES_PER_SESSION
  let newEntry : CacheEntry :=
    { size := f.stat.size, mtime := f.stat.mtimeMs, birthtime := f.stat.birthtimeMs,
      entries := entries, cwd := scan.lastCwd, model := scan.lastModel }
  (some { sessionId := sessionId, project := project, jsonlPath := filePath,
          lastActivityMs := f.stat.mtimeMs, startedMs := f.stat.birthtimeMs,
          cwd := scan.lastCwd, model := scan.lastModel, entries := entries },
    mapSet cache filePath newEntry, true)

/-- The constructed candidate path `join(projectsDir, projectEntry, file)`. -/
def candidatePath (projectsDir projectEntry fileName : String) : String :=
  projectsDir ++ "/" ++ projectEntry ++ "/" ++ fileName

/-- Processing of one candidate file (src/sessions.ts lines 192–255):
extension, activity-window and minimum-size gates, then the
(size, mtime)-keyed cache check.  The `Bool` records whether the file was
(re-)read. -/
def processFile (now : Int) (dateParse : Json → Option Int)
    (homeEncoded projectsDir projectEntry : String) (cache : SessionCache)
    (f : CandidateFile) : Option ActiveSession × SessionCache × Bool :=
  if ¬ jsEndsWith f.fileName ".jsonl" then (none, cache, false)
  else
    let filePath := candidatePath projectsDir projectEntry f.fileName
    if now - f.stat.mtimeMs > ACTIVE_WINDOW_MS then (none, cache, false)
    else if f.stat.size < 100 then (none, cache, false)
    else
      let sessionId := basenameJsonl f.fileName
      let project := decodeProjectName homeEncoded projectEntry
      match mapGet cache filePath with
      | some c =>
        if c.size = f.stat.size ∧ c.mtime = f.stat.mtimeMs then
          (some (sessionFromCache filePath sessionId project f.stat c), cache, false)
        else processFileRead dateParse filePath sessionId project cache f
      | none => processFileRead dateParse filePath sessionId project cache f

/-- The assembly loop over all (projectEntry, candidate) pairs, threading the
cache and counting file reads. -/
def assembleAll (now : Int) (dateParse : Json → Option Int)
    (homeEncoded projectsDir : String) (cache : SessionCache) :
    List (String × CandidateFile) → List ActiveSession × SessionCache × Nat
  | [] => ([], cache, 0)
  | (projectEntry, f) :: rest =>
    let r := processFile now dateParse homeEncoded projectsDir projectEntry cache f
    let rr := assembleAll now dateParse homeEncoded projectsDir r.2.1 rest
    (r.1.toList ++ rr.1, rr.2.1, (if r.2.2 then 1 else 0) + rr.2.2)

/-- `findActiveSessions` (src/sessions.ts): assembly over the enumerated
candidates, then the liveness filter, recency sort, per-CWD dedup and final
stable order.  `now` and `now2` are the two `Date.now()` reads; the liveness
signal (`runningCwds`, `cwdCounts`, `isWindows`) comes from the platform
adapter. -/
def findActiveSessions (now now2 : Int) (dateParse : Json → Option Int)
    (homeEncoded projectsDir : String) (cache : SessionCache)
    (files : List (String × CandidateFile)) (runningCwds : List String)
    (cwdCounts : List (String × Nat)) (isWindows : Bool) :
    List ActiveSession × SessionCache × Nat :=
  let asm := assembleAll now dateParse homeEncoded projectsDir cache files
  (filterDedupSort asm.1 now2 runningCwds cwdCounts isWindows, asm.2.1, asm.2.2)

/-! ## Shared lemmas about the association-map model -/

theorem mapGet_mapSet_self {α : Type} (m : List (String × α)) (k : String) (v : α) :
    mapGet (mapSet m k v) k = some v := by
  unfold mapSet
  by_cases h : (m.find? (fun e => e.1 = k)).isSome = true
  · rw [if_pos h]
    unfold mapGet
    rw [List.find?_map]
    have hcomp :
        ((fun e : String × α => decide (e.1 = k)) ∘
          fun e : String × α => if e.1 = k then (k, v) else e) =
        fun e : String × α => decide (e.1 = k) := by
      funext e
      by_cases he : e.1 = k <;> simp [he]
    rw [hcomp]
    obtain ⟨e0, he0⟩ := Option.isSome_iff_exists.mp h
    rw [he0]
    have h1 : e0.1 = k := by simpa using List.find?_some he0
    simp [h1]
  · rw [if_neg h]
    unfold mapGet
    rw [List.find?_append]
    have hnone : m.find? (fun e => decide (e.1 = k)) = none := by
      cases hx : m.find? (fun e => decide (e.1 = k)) with
      | none => rfl
      | some e => exact absurd (by simp [hx]) h
    simp [hnone]

theorem mapGet_mapSet_ne {α : Type} (m : List (String × α)) (k k' : String) (v : α)
    (hne : k' ≠ k) : mapGet (mapSet m k v) k' = mapGet m k' := by
  unfold mapSet
  by_cases h : (m.find? (fun e => e.1 = k)).isSome = true
  · rw [if_pos h]
    unfold mapGet
    rw [List.find?_map]
    have hcomp :
        ((fun e : String × α => decide (e.1 = k')) ∘
          fun e : String × α => if e.1 = k then (k, v) else e) =
        fun e : String × α => decide (e.1 = k') := by
      funext e
      by_cases he : e.1 = k
      · simp [he, Ne.symm hne, hne]
      · simp [he]
    rw [hcomp]
    cases hx : m.find? (fun e => decide (e.1 = k')) with
    | none => rfl
    | some e =>
      have h1 : e.1 = k' := by simpa using List.find?_some hx
      have h2 : e.1 ≠ k := h1 ▸ hne
      simp [h2]
  · rw [if_neg h]
    unfold mapGet
    rw [List.find?_append]
    cases hx : m.find? (fun e => decide (e.1 = k')) with
    | none => simp [hx, Ne.symm hne]
    | some e => simp [hx]

/-! ## C1 — a fresh write always classifies working, and keeps the session
in the snapshot, whatever the process table holds -/

/-- C1: for every session whose last log write is under the fresh threshold
(60 s), `doRefresh` classifies it working and the `findActiveSessions`
liveness filter retains it, for every process table (`procs`,
`runningCwds`) and platform. -/
theorem fresh_session_always_working (now : Int) (s : ActiveSession)
    (procs : List LiveProc) (runningCwds : List String) (isWindows : Bool)
    (h : now - s.lastActivityMs < FRESH_WORKING_MS) :
    classifyWorking now procs s = true ∧
      keepAlive now runningCwds isWindows s = true := by
  have hg : now - s.lastActivityMs < CLOSED_GRACE_MS := by
    unfold FRESH_WORKING_MS at h
    unfold CLOSED_GRACE_MS
    omega
  constructor
  · unfold classifyWorking
    simp [h]
  · unfold keepAlive
    cases isWindows with
    | true => simp [hg]
    | false =>
      cases s.cwd with
      | none => simp [hg]
      | some c =>
        by_cases hm : (findMatchingRunningCwd c runningCwds).isSome
        · simp [hm]
        · simp [hm, hg]

/-- C1 witness: a session written 500 ms ago is working and retained even
with a non-matching, idle process table. -/
theorem fresh_session_always_working_witness :
    classifyWorking 1000 [⟨7, "/other", 0⟩]
        { sessionId := "s1", project := "p", jsonlPath := "j",
          lastActivityMs := 500, startedMs := 0, cwd := some "/work",
          model := none, entries := [] } = true ∧
      keepAlive 1000 ["/other"] false
        { sessionId := "s1", project := "p", jsonlPath := "j",
          lastActivityMs := 500, startedMs := 0, cwd := some "/work",
          model := none, entries := [] } = true :=
  fresh_session_always_working 1000
    { sessionId := "s1", project := "p", jsonlPath := "j",
      lastActivityMs := 500, startedMs := 0, cwd := some "/work",
      model := none, entries := [] }
    [⟨7, "/other", 0⟩] ["/other"] false (by decide)

/-! ## C10 — busyness requires an exact CWD match -/

/-- C10: `isSessionProcessBusy` returns true only for a process whose CWD
equals the queried directory exactly with CPU above 1.0%; any directory
with no exactly-matching process (including mere prefix/suffix matches)
yields false. -/
theorem busy_only_on_exact_cwd_match (procs : List LiveProc) (dir : String) :
    (isSessionProcessBusy procs dir = true →
        ∃ p ∈ procs, p.cwd = dir ∧ (1 : Rat) < p.cpu) ∧
      ((∀ p ∈ procs, p.cwd ≠ dir) → isSessionProcessBusy procs dir = false) := by
  constructor
  · intro h
    unfold isSessionProcessBusy at h
    cases hf : procs.find? (fun p => p.cwd = dir) with
    | none => rw [hf] at h; exact absurd h (by simp)
    | some p =>
      rw [hf] at h
      refine ⟨p, List.mem_of_find?_eq_some hf, ?_, by simpa using h⟩
      simpa using List.find?_some hf
  · intro h
    unfold isSessionProcessBusy
    cases hf : procs.find? (fun p => p.cwd = dir) with
    | none => rfl
    | some p =>
      have h1 : p.cwd = dir := by simpa using List.find?_some hf
      exact absurd h1 (h p (List.mem_of_find?_eq_some hf))

/-- C10 witness: a process at `/a` with 2% CPU does not make the drifted
subdirectory `/a/b` busy. -/
theorem busy_only_on_exact_cwd_match_witness :
    isSessionProcessBusy [⟨1, "/a", 2⟩] "/a/b" = false :=
  (busy_only_on_exact_cwd_match [⟨1, "/a", 2⟩] "/a/b").2 (by decide)

/-! ## C7 — parseLine is total and drops malformed lines -/

/-- C7: `parseLine` is a total function (the JS original never throws: every
access is guarded and `JSON.parse` is wrapped in try/catch, modelled by the
`Option Json` input); a line whose JSON failed to parse yields zero entries,
and so does any record whose timestamp is missing, falsy, or parses to
`NaN`/`0` (the `!ts` guard). -/
theorem parseLine_never_throws_and_drops_malformed
    (dateParse : Json → Option Int) (raw : Json)
    (h : computeTs dateParse raw = none ∨ computeTs dateParse raw = some 0) :
    parseLine dateParse none = { entries := [] } ∧
      parseLine dateParse (some raw) = { entries := [] } := by
  refine ⟨rfl, ?_⟩
  unfold parseLine
  rcases h with h | h <;> simp [h]

/-- C7 witness: an unparseable-date record and (from the same call) the
invalid-JSON line both produce zero entries. -/
theorem parseLine_never_throws_and_drops_malformed_witness :
    parseLine (fun _ => none) none = { entries := [] } ∧
      parseLine (fun _ => none)
        (some (Json.obj [("timestamp", Json.str "not-a-date")])) =
        { entries := [] } :=
  parseLine_never_throws_and_drops_malformed (fun _ => none)
    (Json.obj [("timestamp", Json.str "not-a-date")]) (Or.inl rfl)

/-! ## C6 — the first refresh pass emits no events -/

/-- C6: on the very first refresh (no prior snapshot, empty working and
known sets, `isFirstRefresh` set), `doRefresh` produces no notification
events at all — in particular no agent-idle event for sessions already idle
at startup — for every snapshot, clock and process table. -/
theorem first_refresh_emits_no_events (lastText : String → Option String)
    (next : Snapshot) (now : Int) (procs : List LiveProc) :
    refreshEvents lastText none next now procs [] [] true = [] := by
  unfold refreshEvents computeNotifications
  simp

/-! ## C5 — the notification dedup window suppresses the second emission -/

theorem isDuplicate_fresh (now : Int) (key : String) (recent : List (String × Int))
    (h : ∀ t, mapGet recent key = some t →
      t = 0 ∨ ¬(now - t < NOTIFICATION_DEDUP_MS)) :
    (isDuplicate now key recent).1 = false ∧
      mapGet (isDuplicate now key recent).2 key = some now := by
  unfold isDuplicate
  cases hx : mapGet recent key with
  | none => exact ⟨rfl, mapGet_mapSet_self _ _ _⟩
  | some t =>
    have hcond : ¬(t ≠ 0 ∧ now - t < NOTIFICATION_DEDUP_MS) := by
      rcases h t hx with h0 | h1
      · exact fun hc => hc.1 h0
      · exact fun hc => h1 hc.2
    dsimp only
    rw [if_neg hcond]
    exact ⟨rfl, mapGet_mapSet_self _ _ _⟩

theorem isDuplicate_hit (now : Int) (key : String) (recent : List (String × Int))
    (t : Int) (hx : mapGet recent key = some t) (h0 : t ≠ 0)
    (hw : now - t < NOTIFICATION_DEDUP_MS) :
    isDuplicate now key recent = (true, recent) := by
  unfold isDuplicate
  rw [hx]
  dsimp only
  exact if_pos ⟨h0, hw⟩

/-- C5: when `sendNotification` is invoked twice with events carrying the
same dedupe key inside the dedup window (the key fresh in the recency map at
the first call, `now1` a real clock value, `now2 - now1 <
NOTIFICATION_DEDUP_MS`), exactly one item is dispatched: the first call
enqueues it and the second call enqueues nothing. -/
theorem dedup_window_dispatches_once (st : NotifyState) (now1 now2 : Int)
    (e1 e2 : NotificationEvent) (hkey : e1.dedupeKey = e2.dedupeKey)
    (hen : st.enabled = true)
    (hfresh : ∀ t, mapGet st.recent e1.dedupeKey = some t →
      t = 0 ∨ ¬(now1 - t < NOTIFICATION_DEDUP_MS))
    (hn1 : now1 ≠ 0) (hwin : now2 - now1 < NOTIFICATION_DEDUP_MS) :
    (sendNotification now1 e1 st).queue =
        st.queue ++ [⟨e1.title, e1.body,
          e1.type == EventKind.agent_idle || e1.type == EventKind.needs_input⟩] ∧
      (sendNotification now2 e2 (sendNotification now1 e1 st)).queue =
        (sendNotification now1 e1 st).queue := by
  obtain ⟨hd1, hg1⟩ := isDuplicate_fresh now1 e1.dedupeKey st.recent hfresh
  have hq1 : (sendNotification now1 e1 st).queue =
      st.queue ++ [⟨e1.title, e1.body,
        e1.type == EventKind.agent_idle || e1.type == EventKind.needs_input⟩] := by
    unfold sendNotification
    rw [if_neg (by simp [hen]), if_neg (by simp [hd1])]
  have hr1 : (sendNotification now1 e1 st).recent =
      (isDuplicate now1 e1.dedupeKey st.recent).2 := by
    unfold sendNotification
    rw [if_neg (by simp [hen]), if_neg (by simp [hd1])]
  have he1 : (sendNotification now1 e1 st).enabled = true := by
    unfold sendNotification
    rw [if_neg (by simp [hen]), if_neg (by simp [hd1])]
    exact hen
  refine ⟨hq1, ?_⟩
  have hg2 : mapGet (sendNotification now1 e1 st).recent e2.dedupeKey = some now1 := by
    rw [hr1, ← hkey]
    exact hg1
  have hdup2 : isDuplicate now2 e2.dedupeKey (sendNotification now1 e1 st).recent =
      (true, (sendNotification now1 e1 st).recent) :=
    isDuplicate_hit now2 e2.dedupeKey _ now1 hg2 hn1 hwin
  generalize hgen : sendNotification now1 e1 st = st1 at he1 hdup2 ⊢
  unfold sendNotification
  rw [if_neg (by simp [he1]), if_pos (by simp [hdup2])]

/-- C5 witness: starting from an empty recency map, the same key sent at
t=1000 and t=2000 dispatches exactly once. -/
theorem dedup_window_dispatches_once_witness :
    (sendNotification 1000
        ⟨EventKind.agent_idle, "T", "B", "k", none⟩
        ⟨[], [], true⟩).queue = [] ++ [⟨"T", "B", true⟩] ∧
      (sendNotification 2000 ⟨EventKind.agent_idle, "T", "B", "k", none⟩
          (sendNotification 1000 ⟨EventKind.agent_idle, "T", "B", "k", none⟩
            ⟨[], [], true⟩)).queue =
        (sendNotification 1000 ⟨EventKind.agent_idle, "T", "B", "k", none⟩
          ⟨[], [], true⟩).queue :=
  dedup_window_dispatches_once ⟨[], [], true⟩ 1000 2000
    ⟨EventKind.agent_idle, "T", "B", "k", none⟩
    ⟨EventKind.agent_idle, "T", "B", "k", none⟩
    rfl rfl (by intro t ht; simp [mapGet] at ht) (by decide) (by decide)

/-! ## C2 — sessions past fresh+grace with no matching process are dropped -/

theorem mem_of_mem_dedupeByCwd {rcwds : List String} {counts seen : List (String × Nat)}
    {l : List ActiveSession} {x : ActiveSession}
    (h : x ∈ dedupeByCwd rcwds counts seen l) : x ∈ l := by
  induction l generalizing seen with
  | nil => simpa [dedupeByCwd] using h
  | cons s rest ih =>
    unfold dedupeByCwd at h
    cases hm : matchedRunningCwd rcwds s with
    | none =>
      rw [hm] at h
      rcases List.mem_cons.mp h with h1 | h2
      · exact h1 ▸ List.mem_cons_self s rest
      · exact List.mem_cons_of_mem s (ih h2)
    | some mc =>
      rw [hm] at h
      dsimp only at h
      by_cases hc : (mapGet seen mc).getD 0 + 1 ≤ (mapGet counts mc).getD 1
      · rw [if_pos hc] at h
        rcases List.mem_cons.mp h with h1 | h2
        · exact h1 ▸ List.mem_cons_self s rest
        · exact List.mem_cons_of_mem s (ih h2)
      · rw [if_neg hc] at h
        exact List.mem_cons_of_mem s (ih h)

theorem keepAlive_false_of_stale_unmatched (now2 : Int) (rcwds : List String)
    (s : ActiveSession) (hstale : ¬ (now2 - s.lastActivityMs < CLOSED_GRACE_MS))
    (hnomatch : matchedRunningCwd rcwds s = none) :
    keepAlive now2 rcwds false s = false := by
  unfold keepAlive
  cases hc : s.cwd with
  | none => simp [hstale]
  | some c =>
    have hm : findMatchingRunningCwd c rcwds = none := by
      unfold matchedRunningCwd at hnomatch
      rw [hc] at hnomatch
      exact hnomatch
    simp [hm, hstale]

/-- Every member of `filterDedupSort` survived the `keepAlive` filter. -/
theorem keepAlive_of_mem_filterDedupSort {sessions : List ActiveSession}
    {now2 : Int} {rcwds : List String} {counts : List (String × Nat)}
    {w : Bool} {s : ActiveSession}
    (h : s ∈ filterDedupSort sessions now2 rcwds counts w) :
    keepAlive now2 rcwds w s = true := by
  unfold filterDedupSort at h
  have h1 : s ∈ dedupedSessions sessions now2 rcwds counts w :=
    ((List.perm_insertionSort startThenId _).mem_iff).mp h
  have h2 : s ∈ aliveSorted sessions now2 rcwds w :=
    mem_of_mem_dedupeByCwd h1
  have h3 : s ∈ sessions.filter (keepAlive now2 rcwds w) :=
    ((List.perm_insertionSort recencyGE _).mem_iff).mp h2
  exact List.of_mem_filter h3

/-- C2: a session whose last write is older than fresh+grace and whose
recorded CWD matches no live process directory (exactly or by path
containment) is absent from the list `findActiveSessions` returns (on the
per-directory-matching platforms). -/
theorem stale_unmatched_session_absent
    (now now2 : Int) (dateParse : Json → Option Int)
    (homeEncoded projectsDir : String) (cache : SessionCache)
    (files : List (String × CandidateFile)) (runningCwds : List String)
    (cwdCounts : List (String × Nat)) (s : ActiveSession)
    (hstale : now2 - s.lastActivityMs > FRESH_WORKING_MS + CLOSED_GRACE_MS)
    (hnomatch : matchedRunningCwd runningCwds s = none) :
    s ∉ (findActiveSessions now now2 dateParse homeEncoded projectsDir cache files
        runningCwds cwdCounts false).1 := by
  intro hmem
  have hgrace : ¬ (now2 - s.lastActivityMs < CLOSED_GRACE_MS) := by
    unfold FRESH_WORKING_MS CLOSED_GRACE_MS at hstale
    unfold CLOSED_GRACE_MS
    omega
  have hkeep : keepAlive now2 runningCwds false s = true :=
    keepAlive_of_mem_filterDedupSort hmem
  rw [keepAlive_false_of_stale_unmatched now2 runningCwds s hgrace hnomatch] at hkeep
  exact Bool.false_ne_true hkeep

/-- C2 witness: a session assembled from a file idle for 200 s with no CWD
match is absent from the returned list. -/
theorem stale_unmatched_session_absent_witness :
    ({ sessionId := "abc", project := "proj", jsonlPath := "/p/proj/abc.jsonl",
       lastActivityMs := 800000, startedMs := 5, cwd := none, model := none,
       entries := [] } : ActiveSession) ∉
      (findActiveSessions 1000000 1000000 (fun _ => none) "-home-u" "/p" []
        [("proj", ⟨"abc.jsonl", ⟨200, 800000, 5⟩, []⟩)] ["/x"] [] false).1 :=
  stale_unmatched_session_absent 1000000 1000000 (fun _ => none) "-home-u" "/p" []
    [("proj", ⟨"abc.jsonl", ⟨200, 800000, 5⟩, []⟩)] ["/x"] []
    { sessionId := "abc", project := "proj", jsonlPath := "/p/proj/abc.jsonl",
      lastActivityMs := 800000, startedMs := 5, cwd := none, model := none,
      entries := [] }
    (by decide) rfl

/-! ## C8 — the returned order is start time then id, and is determined by
the retained session set -/

instance : IsTotal ActiveSession recencyGE :=
  ⟨fun a b => le_total b.lastActivityMs a.lastActivityMs⟩

instance : IsTrans ActiveSession recencyGE :=
  ⟨fun _ _ _ hab hbc => le_trans hbc hab⟩

instance : IsTotal ActiveSession startThenId := by
  constructor
  intro a b
  rcases lt_trichotomy a.startedMs b.startedMs with h | h | h
  · exact Or.inl (Or.inl h)
  · rcases le_total a.sessionId b.sessionId with hid | hid
    · exact Or.inl (Or.inr ⟨h, hid⟩)
    · exact Or.inr (Or.inr ⟨h.symm, hid⟩)
  · exact Or.inr (Or.inl h)

instance : IsTrans ActiveSession startThenId := by
  constructor
  intro a b c hab hbc
  rcases hab with hab | ⟨hab, haid⟩
  · rcases hbc with hbc | ⟨hbc, _⟩
    · exact Or.inl (lt_trans hab hbc)
    · exact Or.inl (hbc ▸ hab)
  · rcases hbc with hbc | ⟨hbc, hbid⟩
    · exact Or.inl (hab ▸ hbc)
    · exact Or.inr ⟨hab.trans hbc, le_trans haid hbid⟩

/-- `startThenId` is antisymmetric on any collection where the
`(startedMs, sessionId)` key determines the element. -/
theorem startThenId_key_eq {a b : ActiveSession}
    (hab : startThenId a b) (hba : startThenId b a) :
    a.startedMs = b.startedMs ∧ a.sessionId = b.sessionId := by
  rcases hab with hab | ⟨hab, haid⟩
  · rcases hba with hba | ⟨hba, _⟩
    · exact absurd (lt_trans hab hba) (lt_irrefl _)
    · exact absurd (hba ▸ hab) (lt_irrefl _)
  · rcases hba with hba | ⟨hba, hbid⟩
    · exact absurd (hab ▸ hba) (lt_irrefl _)
    · exact ⟨hab, le_antisymm haid hbid⟩

/-- Two sorted lists that are permutations of each other coincide, given
that the sort key is injective on their members. -/
theorem sorted_eq_of_perm_of_key_inj :
    ∀ {l₁ l₂ : List ActiveSession}, l₁.Perm l₂ →
      (∀ a ∈ l₁, ∀ b ∈ l₁, a.startedMs = b.startedMs →
        a.sessionId = b.sessionId → a = b) →
      List.Sorted startThenId l₁ → List.Sorted startThenId l₂ → l₁ = l₂ := by
  intro l₁
  induction l₁ with
  | nil => intro l₂ hp _ _ _; exact hp.nil_eq
  | cons a t₁ ih =>
    intro l₂ hp hinj hs₁ hs₂
    cases l₂ with
    | nil => exact absurd hp.symm.nil_eq (by simp)
    | cons b t₂ =>
      have hael : a ∈ b :: t₂ := hp.mem_iff.mp (List.mem_cons_self a t₁)
      have hbel : b ∈ a :: t₁ := hp.symm.mem_iff.mp (List.mem_cons_self b t₂)
      have hab : a = b := by
        by_cases h1 : a = b
        · exact h1
        · have ha2 : a ∈ t₂ := by
            rcases List.mem_cons.mp hael with h | h
            · exact absurd h h1
            · exact h
          have hb1 : b ∈ t₁ := by
            rcases List.mem_cons.mp hbel with h | h
            · exact absurd h.symm h1
            · exact h
          have hr1 : startThenId a b := (List.sorted_cons.mp hs₁).1 b hb1
          have hr2 : startThenId b a := (List.sorted_cons.mp hs₂).1 a ha2
          obtain ⟨hk1, hk2⟩ := startThenId_key_eq hr1 hr2
          exact hinj a (List.mem_cons_self a t₁) b (List.mem_cons_of_mem a hb1) hk1 hk2
      subst hab
      have hp' : t₁.Perm t₂ := hp.cons_inv
      have hinj' : ∀ x ∈ t₁, ∀ y ∈ t₁, x.startedMs = y.startedMs →
          x.sessionId = y.sessionId → x = y := fun x hx y hy =>
        hinj x (List.mem_cons_of_mem a hx) y (List.mem_cons_of_mem a hy)
      rw [ih hp' hinj' (List.sorted_cons.mp hs₁).2 (List.sorted_cons.mp hs₂).2]

/-- C8: the list `findActiveSessions` returns is sorted ascending by
`startedMs` with ties broken by `sessionId`; consequently any two runs whose
retained (post-filter, post-dedup) session sets agree — with the sort key
identifying sessions — return identically ordered lists. -/
theorem snapshot_order_start_then_id
    (sessions sessions' : List ActiveSession) (now2 : Int)
    (rcwds : List String) (counts : List (String × Nat)) (w : Bool)
    (hperm : (dedupedSessions sessions now2 rcwds counts w).Perm
      (dedupedSessions sessions' now2 rcwds counts w))
    (hinj : ∀ a ∈ dedupedSessions sessions now2 rcwds counts w,
      ∀ b ∈ dedupedSessions sessions now2 rcwds counts w,
        a.startedMs = b.startedMs → a.sessionId = b.sessionId → a = b) :
    List.Sorted startThenId (filterDedupSort sessions now2 rcwds counts w) ∧
      filterDedupSort sessions now2 rcwds counts w =
        filterDedupSort sessions' now2 rcwds counts w := by
  have hs1 : List.Sorted startThenId (filterDedupSort sessions now2 rcwds counts w) :=
    List.sorted_insertionSort startThenId _
  have hs2 : List.Sorted startThenId (filterDedupSort sessions' now2 rcwds counts w) :=
    List.sorted_insertionSort startThenId _
  refine ⟨hs1, ?_⟩
  have hp : (filterDedupSort sessions now2 rcwds counts w).Perm
      (filterDedupSort sessions' now2 rcwds counts w) :=
    ((List.perm_insertionSort startThenId _).trans hperm).trans
      (List.perm_insertionSort startThenId _).symm
  have hinj' : ∀ a ∈ filterDedupSort sessions now2 rcwds counts w,
      ∀ b ∈ filterDedupSort sessions now2 rcwds counts w,
        a.startedMs = b.startedMs → a.sessionId = b.sessionId → a = b := by
    intro a ha b hb
    exact hinj a ((List.perm_insertionSort startThenId _).mem_iff.mp ha)
      b ((List.perm_insertionSort startThenId _).mem_iff.mp hb)
  exact sorted_eq_of_perm_of_key_inj hp hinj' hs1 hs2

/-- C8 witness: two runs whose inputs list the same two sessions in opposite
orders produce the same sorted output. -/
theorem snapshot_order_start_then_id_witness :
    List.Sorted startThenId (filterDedupSort
      [{ sessionId := "a", project := "p", jsonlPath := "ja", lastActivityMs := 100,
         startedMs := 50, cwd := none, model := none, entries := [] },
       { sessionId := "b", project := "p", jsonlPath := "jb", lastActivityMs := 100,
         startedMs := 60, cwd := none, model := none, entries := [] }] 1000 [] [] false) ∧
      filterDedupSort
        [{ sessionId := "a", project := "p", jsonlPath := "ja", lastActivityMs := 100,
           startedMs := 50, cwd := none, model := none, entries := [] },
         { sessionId := "b", project := "p", jsonlPath := "jb", lastActivityMs := 100,
           startedMs := 60, cwd := none, model := none, entries := [] }] 1000 [] [] false =
      filterDedupSort
        [{ sessionId := "b", project := "p", jsonlPath := "jb", lastActivityMs := 100,
           startedMs := 60, cwd := none, model := none, entries := [] },
         { sessionId := "a", project := "p", jsonlPath := "ja", lastActivityMs := 100,
           startedMs := 50, cwd := none, model := none, entries := [] }] 1000 [] [] false :=
  snapshot_order_start_then_id
    [{ sessionId := "a", project := "p", jsonlPath := "ja", lastActivityMs := 100,
       startedMs := 50, cwd := none, model := none, entries := [] },
     { sessionId := "b", project := "p", jsonlPath := "jb", lastActivityMs := 100,
       startedMs := 60, cwd := none, model := none, entries := [] }]
    [{ sessionId := "b", project := "p", jsonlPath := "jb", lastActivityMs := 100,
       startedMs := 60, cwd := none, model := none, entries := [] },
     { sessionId := "a", project := "p", jsonlPath := "ja", lastActivityMs := 100,
       startedMs := 50, cwd := none, model := none, entries := [] }]
    1000 [] [] false (by decide) (by decide)

/-! ## C3 — the dedup keeps exactly the per-directory process count of the
most-recently-active sessions -/

/-- Characterization of the dedup pass: within the group matched to one
directory `m`, it keeps exactly the first `count - alreadySeen` sessions (in
list order). -/
theorem dedupeByCwd_group (rcwds : List String) (counts : List (String × Nat))
    (m : String) (l : List ActiveSession) :
    ∀ seen : List (String × Nat),
      (dedupeByCwd rcwds counts seen l).filter
          (fun s => matchedRunningCwd rcwds s = some m) =
        (l.filter (fun s => matchedRunningCwd rcwds s = some m)).take
          ((mapGet counts m).getD 1 - (mapGet seen m).getD 0) := by
  induction l with
  | nil => intro seen; simp [dedupeByCwd]
  | cons s rest ih =>
    intro seen
    unfold dedupeByCwd
    cases hm : matchedRunningCwd rcwds s with
    | none =>
      have hp : (decide (matchedRunningCwd rcwds s = some m)) = false := by
        simp [hm]
      simp only [List.filter_cons, hp, Bool.false_eq_true, if_false]
      exact ih seen
    | some mc =>
      dsimp only
      by_cases hmc : mc = m
      · subst hmc
        have hp : (decide (matchedRunningCwd rcwds s = some mc)) = true := by
          simp [hm]
        by_cases hk : (mapGet seen mc).getD 0 + 1 ≤ (mapGet counts mc).getD 1
        · rw [if_pos hk]
          simp only [List.filter_cons, hp, if_true]
          rw [ih (mapSet seen mc ((mapGet seen mc).getD 0 + 1))]
          rw [mapGet_mapSet_self]
          simp only [Option.getD_some]
          have harith : (mapGet counts mc).getD 1 - (mapGet seen mc).getD 0 =
              ((mapGet counts mc).getD 1 - ((mapGet seen mc).getD 0 + 1)) + 1 := by
            omega
          rw [harith, List.take_succ_cons]
        · rw [if_neg hk]
          simp only [List.filter_cons, hp, if_true]
          rw [ih (mapSet seen mc ((mapGet seen mc).getD 0 + 1))]
          rw [mapGet_mapSet_self]
          simp only [Option.getD_some]
          have h1 : (mapGet counts mc).getD 1 - ((mapGet seen mc).getD 0 + 1) = 0 := by
            omega
          have h2 : (mapGet counts mc).getD 1 - (mapGet seen mc).getD 0 = 0 := by
            omega
          rw [h1, h2, List.take_zero, List.take_zero]
      · have hp : (decide (matchedRunningCwd rcwds s = some m)) = false := by
          simp [hm, hmc]
        have hseen : mapGet (mapSet seen mc ((mapGet seen mc).getD 0 + 1)) m =
            mapGet seen m :=
          mapGet_mapSet_ne seen mc m _ (fun h => hmc h.symm)
        by_cases hk : (mapGet seen mc).getD 0 + 1 ≤ (mapGet counts mc).getD 1
        · rw [if_pos hk]
          simp only [List.filter_cons, hp, Bool.false_eq_true, if_false]
          rw [ih (mapSet seen mc ((mapGet seen mc).getD 0 + 1)), hseen]
        · rw [if_neg hk]
          simp only [List.filter_cons, hp, Bool.false_eq_true, if_false]
          rw [ih (mapSet seen mc ((mapGet seen mc).getD 0 + 1)), hseen]

/-- C3: when the retained sessions matching live directory `m` number
`N ≥ M` with `M` processes observed there, `findActiveSessions` keeps
exactly the `M` most-recently-active of them: the kept group has size `M`,
it is precisely the first `M` of the recency-sorted group, and every kept
session is at least as recently active as every dropped one. -/
theorem dedup_keeps_most_recent (sessions : List ActiveSession) (now2 : Int)
    (rcwds : List String) (counts : List (String × Nat)) (m : String) (M : Nat)
    (hM : mapGet counts m = some M)
    (hMN : M ≤ ((aliveSorted sessions now2 rcwds false).filter
      (fun s => matchedRunningCwd rcwds s = some m)).length) :
    (((filterDedupSort sessions now2 rcwds counts false).filter
        (fun s => matchedRunningCwd rcwds s = some m)).length = M) ∧
      (∀ s, (s ∈ filterDedupSort sessions now2 rcwds counts false ∧
          matchedRunningCwd rcwds s = some m) ↔
        s ∈ ((aliveSorted sessions now2 rcwds false).filter
          (fun s => matchedRunningCwd rcwds s = some m)).take M) ∧
      (∀ a ∈ ((aliveSorted sessions now2 rcwds false).filter
          (fun s => matchedRunningCwd rcwds s = some m)).take M,
        ∀ b ∈ ((aliveSorted sessions now2 rcwds false).filter
          (fun s => matchedRunningCwd rcwds s = some m)).drop M,
        b.lastActivityMs ≤ a.lastActivityMs) := by
  have hgroup : (dedupedSessions sessions now2 rcwds counts false).filter
      (fun s => matchedRunningCwd rcwds s = some m) =
      ((aliveSorted sessions now2 rcwds false).filter
        (fun s => matchedRunningCwd rcwds s = some m)).take M := by
    unfold dedupedSessions
    rw [dedupeByCwd_group, hM]
    simp [mapGet]
  have hperm : ((filterDedupSort sessions now2 rcwds counts false).filter
      (fun s => matchedRunningCwd rcwds s = some m)).Perm
      ((dedupedSessions sessions now2 rcwds counts false).filter
        (fun s => matchedRunningCwd rcwds s = some m)) :=
    (List.perm_insertionSort startThenId _).filter _
  refine ⟨?_, ?_, ?_⟩
  · rw [hperm.length_eq, hgroup, List.length_take]
    omega
  · intro s
    constructor
    · intro ⟨hs, hmatch⟩
      have : s ∈ (filterDedupSort sessions now2 rcwds counts false).filter
          (fun s => matchedRunningCwd rcwds s = some m) :=
        List.mem_filter.mpr ⟨hs, by simp [hmatch]⟩
      rw [← hgroup]
      exact hperm.mem_iff.mp this
    · intro hs
      rw [← hgroup] at hs
      have h1 := hperm.mem_iff.mpr hs
      have h2 := List.mem_filter.mp h1
      exact ⟨h2.1, by simpa using h2.2⟩
  · intro a ha b hb
    have hsorted : List.Sorted recencyGE ((aliveSorted sessions now2 rcwds false).filter
        (fun s => matchedRunningCwd rcwds s = some m)) :=
      (List.sorted_insertionSort recencyGE _).filter _
    have := List.take_append_drop M ((aliveSorted sessions now2 rcwds false).filter
      (fun s => matchedRunningCwd rcwds s = some m))
    rw [← this] at hsorted
    exact (List.pairwise_append.mp hsorted).2.2 a ha b hb

/-- C3 witness: three sessions in one directory with two observed processes
keep exactly the two most recent. -/
theorem dedup_keeps_most_recent_witness :
    (((filterDedupSort
        [{ sessionId := "a", project := "p", jsonlPath := "ja", lastActivityMs := 300,
           startedMs := 1, cwd := some "/x", model := none, entries := [] },
         { sessionId := "b", project := "p", jsonlPath := "jb", lastActivityMs := 200,
           startedMs := 2, cwd := some "/x", model := none, entries := [] },
         { sessionId := "c", project := "p", jsonlPath := "jc", lastActivityMs := 100,
           startedMs := 3, cwd := some "/x", model := none, entries := [] }]
        350 ["/x"] [("/x", 2)] false).filter
        (fun s => matchedRunningCwd ["/x"] s = some "/x")).length = 2) ∧
      (∀ s, (s ∈ filterDedupSort
          [{ sessionId := "a", project := "p", jsonlPath := "ja", lastActivityMs := 300,
             startedMs := 1, cwd := some "/x", model := none, entries := [] },
           { sessionId := "b", project := "p", jsonlPath := "jb", lastActivityMs := 200,
             startedMs := 2, cwd := some "/x", model := none, entries := [] },
           { sessionId := "c", project := "p", jsonlPath := "jc", lastActivityMs := 100,
             startedMs := 3, cwd := some "/x", model := none, entries := [] }]
          350 ["/x"] [("/x", 2)] false ∧
          matchedRunningCwd ["/x"] s = some "/x") ↔
        s ∈ ((aliveSorted
          [{ sessionId := "a", project := "p", jsonlPath := "ja", lastActivityMs := 300,
             startedMs := 1, cwd := some "/x", model := none, entries := [] },
           { sessionId := "b", project := "p", jsonlPath := "jb", lastActivityMs := 200,
             startedMs := 2, cwd := some "/x", model := none, entries := [] },
           { sessionId := "c", project := "p", jsonlPath := "jc", lastActivityMs := 100,
             startedMs := 3, cwd := some "/x", model := none, entries := [] }]
          350 ["/x"] false).filter
          (fun s => matchedRunningCwd ["/x"] s = some "/x")).take 2) ∧
      (∀ a ∈ ((aliveSorted
          [{ sessionId := "a", project := "p", jsonlPath := "ja", lastActivityMs := 300,
             startedMs := 1, cwd := some "/x", model := none, entries := [] },
           { sessionId := "b", project := "p", jsonlPath := "jb", lastActivityMs := 200,
             startedMs := 2, cwd := some "/x", model := none, entries := [] },
           { sessionId := "c", project := "p", jsonlPath := "jc", lastActivityMs := 100,
             startedMs := 3, cwd := some "/x", model := none, entries := [] }]
          350 ["/x"] false).filter
          (fun s => matchedRunningCwd ["/x"] s = some "/x")).take 2,
        ∀ b ∈ ((aliveSorted
          [{ sessionId := "a", project := "p", jsonlPath := "ja", lastActivityMs := 300,
             startedMs := 1, cwd := some "/x", model := none, entries := [] },
           { sessionId := "b", project := "p", jsonlPath := "jb", lastActivityMs := 200,
             startedMs := 2, cwd := some "/x", model := none, entries := [] },
           { sessionId := "c", project := "p", jsonlPath := "jc", lastActivityMs := 100,
             startedMs := 3, cwd := some "/x", model := none, entries := [] }]
          350 ["/x"] false).filter
          (fun s => matchedRunningCwd ["/x"] s = some "/x")).drop 2,
        b.lastActivityMs ≤ a.lastActivityMs) :=
  dedup_keeps_most_recent
    [{ sessionId := "a", project := "p", jsonlPath := "ja", lastActivityMs := 300,
       startedMs := 1, cwd := some "/x", model := none, entries := [] },
     { sessionId := "b", project := "p", jsonlPath := "jb", lastActivityMs := 200,
       startedMs := 2, cwd := some "/x", model := none, entries := [] },
     { sessionId := "c", project := "p", jsonlPath := "jc", lastActivityMs := 100,
       startedMs := 3, cwd := some "/x", model := none, entries := [] }]
    350 ["/x"] [("/x", 2)] "/x" 2 (by decide) (by decide)

/-! ## C9 — decoding does not invert the lossy encoding; it strips the home
prefix only

The claim asserts `decodeProjectName` is a left inverse of the path
encoding.  The encoding maps both `/` and `.` to `-`, so it is not
injective and no left inverse exists; decoding recovers the original
segment only when it contains no replaced characters. -/

theorem splitCharAux_append (sep : Char) (ys : List Char) :
    ∀ (xs acc : List Char),
      splitCharAux sep (xs ++ sep :: ys) acc =
        splitCharAux sep xs acc ++ splitCharAux sep ys [] := by
  intro xs
  induction xs with
  | nil => intro acc; simp [splitCharAux]
  | cons c cs ih =>
    intro acc
    by_cases hc : c = sep
    · subst hc
      simp [splitCharAux, ih]
    · simp [splitCharAux, hc, ih]

theorem splitCharAux_no_sep (sep : Char) :
    ∀ (l acc : List Char), sep ∉ l →
      splitCharAux sep l acc = [⟨acc.reverse ++ l⟩] := by
  intro l
  induction l with
  | nil => intro acc _; simp [splitCharAux]
  | cons c cs ih =>
    intro acc h
    have hc : ¬ (c = sep) := fun hh => h (hh ▸ List.mem_cons_self c cs)
    rw [splitCharAux, if_neg hc, ih (c :: acc) (fun hm => h (List.mem_cons_of_mem c hm))]
    simp

theorem jsJoin_append_single (sep x : String) :
    ∀ l : List String, l ≠ [] →
      jsJoin sep (l ++ [x]) = jsJoin sep l ++ sep ++ x := by
  intro l
  induction l with
  | nil => intro h; exact absurd rfl h
  | cons a t ih =>
    intro _
    cases t with
    | nil => simp [jsJoin]
    | cons b u =>
      have hrec := ih (by simp)
      simp only [List.cons_append] at hrec ⊢
      rw [jsJoin, jsJoin, hrec]
      apply String.ext
      simp [String.data_append]

theorem replaceDots_append (a b : String) :
    replaceDots (a ++ b) = replaceDots a ++ replaceDots b := by
  unfold replaceDots
  rw [String.data_append, List.map_append]
  rfl

theorem map_no_dots : ∀ l : List Char, '.' ∉ l →
    l.map (fun c => if c = '.' then '-' else c) = l
  | [], _ => rfl
  | c :: cs, h => by
    have hc : ¬ (c = '.') := fun hh => h (hh ▸ List.mem_cons_self c cs)
    rw [List.map_cons, if_neg hc,
      map_no_dots cs (fun hm => h (List.mem_cons_of_mem c hm))]

theorem replaceDots_no_dots (s : String) (h : '.' ∉ s.data) :
    replaceDots s = s :=
  String.ext (map_no_dots s.data h)

/-- Decoding strips an encoded-home prefix plus one dash. -/
theorem decodeProjectName_strip (e rest : String) :
    decodeProjectName e (e ++ "-" ++ rest) = rest := by
  unfold decodeProjectName
  have hne : ¬ (e ++ "-" ++ rest = e) := by
    intro h
    have hlen := congrArg (fun s : String => s.data.length) h
    simp only [String.data_append, List.length_append] at hlen
    have hone : ("-" : String).data.length = 1 := rfl
    rw [hone] at hlen
    omega
  rw [if_neg hne]
  have hpre : jsStartsWith (e ++ "-" ++ rest) (e ++ "-") = true := by
    unfold jsStartsWith
    rw [List.isPrefixOf_iff_prefix, String.data_append]
    exact List.prefix_append _ _
  rw [if_pos hpre]
  unfold jsSliceFrom jsLength
  rw [String.data_append]
  have hlen : e.data.length + 1 = (e ++ "-").data.length := by
    rw [String.data_append, List.length_append]
    rfl
  rw [hlen, List.drop_left]

/-- The encoding of a path one dot-free, slash-free segment below `home`
appends `-segment` to the encoding of `home`. -/
theorem encodeHomePath_append_segment (home sub : String)
    (hparts : (splitChar '/' home).filter (fun p => p ≠ "") ≠ [])
    (hsub_ne : sub.data ≠ []) (hsub_slash : '/' ∉ sub.data)
    (hsub_dot : '.' ∉ sub.data) :
    encodeHomePath (home ++ "/" ++ sub) = encodeHomePath home ++ "-" ++ sub := by
  have hdata : (home ++ "/" ++ sub).data = home.data ++ '/' :: sub.data := by
    rw [String.data_append, String.data_append]
    simp
  have hsplit : splitChar '/' (home ++ "/" ++ sub) = splitChar '/' home ++ [sub] := by
    unfold splitChar
    rw [hdata, splitCharAux_append]
    congr 1
    rw [splitCharAux_no_sep '/' sub.data [] hsub_slash]
    simp
  have hsubne : sub ≠ "" := by
    intro h
    subst h
    exact hsub_ne rfl
  have hfilter : (splitChar '/' (home ++ "/" ++ sub)).filter (fun p => p ≠ "") =
      (splitChar '/' home).filter (fun p => p ≠ "") ++ [sub] := by
    rw [hsplit, List.filter_append]
    simp [hsubne]
  unfold encodeHomePath
  rw [hfilter, jsJoin_append_single "-" sub _ hparts,
    replaceDots_append, replaceDots_append,
    replaceDots_no_dots sub hsub_dot]
  have hdash : replaceDots "-" = "-" := rfl
  rw [hdash]
  apply String.ext
  simp [String.data_append]

/-- C9 counterexample: the encoding collapses `/` and `.` to `-`, so it is
not injective and decoding cannot recover the original path: with home
`/Users/jb`, the distinct absolute paths `/Users/jb/a/b` and
`/Users/jb/a.b` share one encoding, which decodes to `a-b`, not to either
human-readable form. -/
theorem decode_not_left_inverse_counterexample :
    encodeHomePath "/Users/jb/a/b" = encodeHomePath "/Users/jb/a.b" ∧
      ("/Users/jb/a/b" : String) ≠ "/Users/jb/a.b" ∧
      decodeProjectName (encodeHomePath "/Users/jb") (encodeHomePath "/Users/jb/a/b") =
        "a-b" ∧
      ("a-b" : String) ≠ "a/b" ∧ ("a-b" : String) ≠ "a.b" := by
  refine ⟨?_, ?_, ?_, ?_, ?_⟩ <;> decide

/-- C9 (amended): `decodeProjectName` maps the encoded home itself to `~`,
and recovers exactly the trailing segment for paths one segment below home
whenever that segment contains none of the replaced characters (`/`, `.`)
and home has at least one non-empty segment; for other paths the encoding
is lossy and not invertible (see the counterexample). -/
theorem decode_recovers_dotfree_segment (home sub : String)
    (hparts : (splitChar '/' home).filter (fun p => p ≠ "") ≠ [])
    (hsub_ne : sub.data ≠ []) (hsub_slash : '/' ∉ sub.data)
    (hsub_dot : '.' ∉ sub.data) :
    decodeProjectName (encodeHomePath home) (encodeHomePath home) = "~" ∧
      decodeProjectName (encodeHomePath home) (encodeHomePath (home ++ "/" ++ sub)) =
        sub := by
  constructor
  · unfold decodeProjectName
    rw [if_pos rfl]
  · rw [encodeHomePath_append_segment home sub hparts hsub_ne hsub_slash hsub_dot]
    exact decodeProjectName_strip _ _

/-- C9 witness: the project directory of `/Users/jb/proj` decodes back to
`proj`, and the home directory itself to `~`. -/
theorem decode_recovers_dotfree_segment_witness :
    decodeProjectName (encodeHomePath "/Users/jb") (encodeHomePath "/Users/jb") = "~" ∧
      decodeProjectName (encodeHomePath "/Users/jb")
        (encodeHomePath ("/Users/jb" ++ "/" ++ "proj")) = "proj" :=
  decode_recovers_dotfree_segment "/Users/jb" "proj" (by decide) (by decide)
    (by decide) (by decide)

/-! ## C4 — (size, mtime) cache hits reuse entries without re-reading, and
assembly over an unchanged file set is idempotent -/

/-- A candidate that fails one of the three gates is skipped: no session, no
cache change, no read. -/
theorem processFile_skip (now : Int) (dp : Json → Option Int)
    (homeEncoded projectsDir projectEntry : String) (cache : SessionCache)
    (f : CandidateFile)
    (h : jsEndsWith f.fileName ".jsonl" = false ∨
      now - f.stat.mtimeMs > ACTIVE_WINDOW_MS ∨ f.stat.size < 100) :
    processFile now dp homeEncoded projectsDir projectEntry cache f =
      (none, cache, false) := by
  unfold processFile
  rcases h with h | h | h
  · rw [if_pos (by simp [h])]
  · by_cases hext : jsEndsWith f.fileName ".jsonl" = true
    · rw [if_neg (by simp [hext])]
      dsimp only
      rw [if_pos h]
    · rw [if_pos (by simpa using hext)]
  · by_cases hext : jsEndsWith f.fileName ".jsonl" = true
    · rw [if_neg (by simp [hext])]
      dsimp only
      by_cases hwin : now - f.stat.mtimeMs > ACTIVE_WINDOW_MS
      · rw [if_pos hwin]
      · rw [if_neg hwin, if_pos h]
    · rw [if_pos (by simpa using hext)]

/-- On a (size, mtime) cache hit the cached entries are reused verbatim, the
cache is untouched, and the file is not re-read. -/
theorem processFile_hit (now : Int) (dp : Json → Option Int)
    (homeEncoded projectsDir projectEntry : String) (cache : SessionCache)
    (f : CandidateFile) (c : CacheEntry)
    (hext : jsEndsWith f.fileName ".jsonl" = true)
    (hwin : ¬ (now - f.stat.mtimeMs > ACTIVE_WINDOW_MS))
    (hsize : ¬ (f.stat.size < 100))
    (hc : mapGet cache (candidatePath projectsDir projectEntry f.fileName) = some c)
    (hcs : c.size = f.stat.size) (hcm : c.mtime = f.stat.mtimeMs) :
    processFile now dp homeEncoded projectsDir projectEntry cache f =
      (some (sessionFromCache (candidatePath projectsDir projectEntry f.fileName)
          (basenameJsonl f.fileName) (decodeProjectName homeEncoded projectEntry)
          f.stat c),
        cache, false) := by
  unfold processFile
  rw [if_neg (by simp [hext])]
  dsimp only
  rw [if_neg hwin, if_neg hsize, hc]
  dsimp only
  rw [if_pos ⟨hcs, hcm⟩]

/-- Processing one candidate never disturbs cache entries of other paths. -/
theorem processFile_cache_other (now : Int) (dp : Json → Option Int)
    (homeEncoded projectsDir projectEntry : String) (cache : SessionCache)
    (f : CandidateFile) (p : String)
    (hp : p ≠ candidatePath projectsDir projectEntry f.fileName) :
    mapGet (processFile now dp homeEncoded projectsDir projectEntry cache f).2.1 p =
      mapGet cache p := by
  unfold processFile
  by_cases hext : jsEndsWith f.fileName ".jsonl" = true
  · rw [if_neg (by simp [hext])]
    dsimp only
    by_cases hwin : now - f.stat.mtimeMs > ACTIVE_WINDOW_MS
    · rw [if_pos hwin]
    · rw [if_neg hwin]
      by_cases hsize : f.stat.size < 100
      · rw [if_pos hsize]
      · rw [if_neg hsize]
        cases hcv : mapGet cache (candidatePath projectsDir projectEntry f.fileName) with
        | none =>
          unfold processFileRead
          exact mapGet_mapSet_ne cache _ p _ hp
        | some c =>
          dsimp only
          by_cases hmatch : c.size = f.stat.size ∧ c.mtime = f.stat.mtimeMs
          · rw [if_pos hmatch]
          · rw [if_neg hmatch]
            unfold processFileRead
            exact mapGet_mapSet_ne cache _ p _ hp
  · rw [if_pos (by simpa using hext)]

/-- After a candidate passes the gates, the cache holds a fresh
(size, mtime)-matching entry for its path, and the produced session is the
cache-hit rendering of that entry. -/
theorem processFile_not_skip_spec (now : Int) (dp : Json → Option Int)
    (homeEncoded projectsDir projectEntry : String) (cache : SessionCache)
    (f : CandidateFile)
    (hext : jsEndsWith f.fileName ".jsonl" = true)
    (hwin : ¬ (now - f.stat.mtimeMs > ACTIVE_WINDOW_MS))
    (hsize : ¬ (f.stat.size < 100)) :
    ∃ c : CacheEntry,
      mapGet (processFile now dp homeEncoded projectsDir projectEntry cache f).2.1
          (candidatePath projectsDir projectEntry f.fileName) = some c ∧
        c.size = f.stat.size ∧ c.mtime = f.stat.mtimeMs ∧
        (processFile now dp homeEncoded projectsDir projectEntry cache f).1 =
          some (sessionFromCache (candidatePath projectsDir projectEntry f.fileName)
            (basenameJsonl f.fileName) (decodeProjectName homeEncoded projectEntry)
            f.stat c) := by
  cases hcv : mapGet cache (candidatePath projectsDir projectEntry f.fileName) with
  | some c =>
    by_cases hmatch : c.size = f.stat.size ∧ c.mtime = f.stat.mtimeMs
    · refine ⟨c, ?_, hmatch.1, hmatch.2, ?_⟩ <;>
        rw [processFile_hit now dp homeEncoded projectsDir projectEntry cache f c
          hext hwin hsize hcv hmatch.1 hmatch.2]
      · exact hcv
    · have hread : processFile now dp homeEncoded projectsDir projectEntry cache f =
          processFileRead dp (candidatePath projectsDir projectEntry f.fileName)
            (basenameJsonl f.fileName) (decodeProjectName homeEncoded projectEntry)
            cache f := by
        unfold processFile
        rw [if_neg (by simp [hext])]
        dsimp only
        rw [if_neg hwin, if_neg hsize, hcv]
        dsimp only
        rw [if_neg hmatch]
      rw [hread]
      unfold processFileRead
      exact ⟨_, mapGet_mapSet_self _ _ _, rfl, rfl, rfl⟩
  | none =>
    have hread : processFile now dp homeEncoded projectsDir projectEntry cache f =
        processFileRead dp (candidatePath projectsDir projectEntry f.fileName)
          (basenameJsonl f.fileName) (decodeProjectName homeEncoded projectEntry)
          cache f := by
      unfold processFile
      rw [if_neg (by simp [hext])]
      dsimp only
      rw [if_neg hwin, if_neg hsize, hcv]
    rw [hread]
    unfold processFileRead
    exact ⟨_, mapGet_mapSet_self _ _ _, rfl, rfl, rfl⟩

/-- Assembly never disturbs cache entries of paths outside the candidate
list. -/
theorem assembleAll_cache_other (now : Int) (dp : Json → Option Int)
    (homeEncoded projectsDir : String) :
    ∀ (files : List (String × CandidateFile)) (cache : SessionCache) (p : String),
      (∀ pf ∈ files, p ≠ candidatePath projectsDir pf.1 pf.2.fileName) →
      mapGet (assembleAll now dp homeEncoded projectsDir cache files).2.1 p =
        mapGet cache p := by
  intro files
  induction files with
  | nil => intro cache p _; rfl
  | cons pf rest ih =>
    intro cache p hp
    unfold assembleAll
    rw [ih _ p (fun q hq => hp q (List.mem_cons_of_mem pf hq))]
    exact processFile_cache_other now dp homeEncoded projectsDir pf.1 cache pf.2 p
      (hp pf (List.mem_cons_self pf rest))

/-- Unfolding equation of `assembleAll` on a cons cell. -/
theorem assembleAll_cons (now : Int) (dp : Json → Option Int)
    (homeEncoded projectsDir : String) (cache : SessionCache)
    (pe : String) (f : CandidateFile) (rest : List (String × CandidateFile)) :
    assembleAll now dp homeEncoded projectsDir cache ((pe, f) :: rest) =
      ((processFile now dp homeEncoded projectsDir pe cache f).1.toList ++
          (assembleAll now dp homeEncoded projectsDir
            (processFile now dp homeEncoded projectsDir pe cache f).2.1 rest).1,
        (assembleAll now dp homeEncoded projectsDir
          (processFile now dp homeEncoded projectsDir pe cache f).2.1 rest).2.1,
        (if (processFile now dp homeEncoded projectsDir pe cache f).2.2 then 1 else 0) +
          (assembleAll now dp homeEncoded projectsDir
            (processFile now dp homeEncoded projectsDir pe cache f).2.1 rest).2.2) :=
  rfl

/-- Re-running assembly over an unchanged candidate list with the cache the
first run produced yields the same sessions, the same cache, and zero file
reads. -/
theorem assembleAll_idempotent (now : Int) (dp : Json → Option Int)
    (homeEncoded projectsDir : String) :
    ∀ (files : List (String × CandidateFile)) (cache : SessionCache),
      (files.map (fun pf => candidatePath projectsDir pf.1 pf.2.fileName)).Nodup →
      assembleAll now dp homeEncoded projectsDir
          (assembleAll now dp homeEncoded projectsDir cache files).2.1 files =
        ((assembleAll now dp homeEncoded projectsDir cache files).1,
          (assembleAll now dp homeEncoded projectsDir cache files).2.1, 0) := by
  intro files
  induction files with
  | nil => intro cache _; rfl
  | cons pf rest ih =>
    intro cache hnodup
    obtain ⟨pe, f⟩ := pf
    have hnodup' : (rest.map (fun pf => candidatePath projectsDir pf.1 pf.2.fileName)).Nodup :=
      (List.nodup_cons.mp hnodup).2
    have hnotin : ∀ q ∈ rest,
        candidatePath projectsDir pe f.fileName ≠
          candidatePath projectsDir q.1 q.2.fileName := by
      intro q hq heq
      have hmem : candidatePath projectsDir q.1 q.2.fileName ∈
          rest.map (fun pf => candidatePath projectsDir pf.1 pf.2.fileName) :=
        List.mem_map_of_mem _ hq
      rw [← heq] at hmem
      exact (List.nodup_cons.mp hnodup).1 hmem
    by_cases hskip : jsEndsWith f.fileName ".jsonl" = false ∨
        now - f.stat.mtimeMs > ACTIVE_WINDOW_MS ∨ f.stat.size < 100
    · have h1 : processFile now dp homeEncoded projectsDir pe cache f =
          (none, cache, false) :=
        processFile_skip now dp homeEncoded projectsDir pe cache f hskip
      have hrun1 : assembleAll now dp homeEncoded projectsDir cache ((pe, f) :: rest) =
          ((assembleAll now dp homeEncoded projectsDir cache rest).1,
            (assembleAll now dp homeEncoded projectsDir cache rest).2.1,
            (assembleAll now dp homeEncoded projectsDir cache rest).2.2) := by
        rw [assembleAll_cons, h1]
        simp
      have h2 : processFile now dp homeEncoded projectsDir pe
          (assembleAll now dp homeEncoded projectsDir cache rest).2.1 f =
          (none, (assembleAll now dp homeEncoded projectsDir cache rest).2.1, false) :=
        processFile_skip now dp homeEncoded projectsDir pe _ f hskip
      rw [hrun1]
      dsimp only
      rw [assembleAll_cons, h2]
      dsimp only
      rw [ih cache hnodup']
      simp
    · push_neg at hskip
      obtain ⟨hext', hwinle, hsizele⟩ := hskip
      have hext : jsEndsWith f.fileName ".jsonl" = true := by
        simpa using hext'
      have hwin : ¬ (now - f.stat.mtimeMs > ACTIVE_WINDOW_MS) := not_lt.mpr hwinle
      have hsize : ¬ (f.stat.size < 100) := not_lt.mpr hsizele
      obtain ⟨c, hcget, hcs, hcm, hsess⟩ :=
        processFile_not_skip_spec now dp homeEncoded projectsDir pe cache f
          hext hwin hsize
      have hkeep : mapGet (assembleAll now dp homeEncoded projectsDir
            (processFile now dp homeEncoded projectsDir pe cache f).2.1 rest).2.1
          (candidatePath projectsDir pe f.fileName) = some c := by
        rw [assembleAll_cache_other now dp homeEncoded projectsDir rest _ _ hnotin]
        exact hcget
      have hrun2head : processFile now dp homeEncoded projectsDir pe
          (assembleAll now dp homeEncoded projectsDir
            (processFile now dp homeEncoded projectsDir pe cache f).2.1 rest).2.1 f =
          (some (sessionFromCache (candidatePath projectsDir pe f.fileName)
              (basenameJsonl f.fileName) (decodeProjectName homeEncoded pe) f.stat c),
            (assembleAll now dp homeEncoded projectsDir
              (processFile now dp homeEncoded projectsDir pe cache f).2.1 rest).2.1,
            false) :=
        processFile_hit now dp homeEncoded projectsDir pe _ f c hext hwin hsize
          hkeep hcs hcm
      rw [assembleAll_cons now dp homeEncoded projectsDir cache pe f rest]
      dsimp only
      rw [assembleAll_cons, hrun2head]
      dsimp only
      rw [ih (processFile now dp homeEncoded projectsDir pe cache f).2.1 hnodup', hsess]
      simp

/-- C4: (size, mtime) cache hits reuse cached entries without re-reading
(the hit branch returns the cached entries, leaves the cache untouched and
performs no read), hence re-running assembly over an unchanged file set
(distinct paths, same stats) returns the identical sessions from the cache
with zero file reads. -/
theorem cache_hit_no_reread_and_idempotent (now : Int) (dp : Json → Option Int)
    (homeEncoded projectsDir projectEntry : String) (cache : SessionCache)
    (f : CandidateFile) (c : CacheEntry)
    (files : List (String × CandidateFile))
    (hext : jsEndsWith f.fileName ".jsonl" = true)
    (hwin : ¬ (now - f.stat.mtimeMs > ACTIVE_WINDOW_MS))
    (hsize : ¬ (f.stat.size < 100))
    (hc : mapGet cache (candidatePath projectsDir projectEntry f.fileName) = some c)
    (hcs : c.size = f.stat.size) (hcm : c.mtime = f.stat.mtimeMs)
    (hnodup : (files.map (fun pf => candidatePath projectsDir pf.1 pf.2.fileName)).Nodup) :
    processFile now dp homeEncoded projectsDir projectEntry cache f =
        (some (sessionFromCache (candidatePath projectsDir projectEntry f.fileName)
            (basenameJsonl f.fileName) (decodeProjectName homeEncoded projectEntry)
            f.stat c),
          cache, false) ∧
      assembleAll now dp homeEncoded projectsDir
          (assembleAll now dp homeEncoded projectsDir cache files).2.1 files =
        ((assembleAll now dp homeEncoded projectsDir cache files).1,
          (assembleAll now dp homeEncoded projectsDir cache files).2.1, 0) :=
  ⟨processFile_hit now dp homeEncoded projectsDir projectEntry cache f c
      hext hwin hsize hc hcs hcm,
    assembleAll_idempotent now dp homeEncoded projectsDir files cache hnodup⟩

/-- C4 witness: one unchanged candidate whose stats match the cache is
served from the cache without a read, and the second assembly pass over the
same candidate performs zero reads. -/
theorem cache_hit_no_reread_and_idempotent_witness :
    processFile 1000 (fun _ => none) "-h" "/p" "proj"
        [("/p/proj/a.jsonl", ⟨150, 900, 10, [], none, none⟩)]
        ⟨"a.jsonl", ⟨150, 900, 10⟩, []⟩ =
        (some (sessionFromCache (candidatePath "/p" "proj" "a.jsonl")
            (basenameJsonl "a.jsonl") (decodeProjectName "-h" "proj")
            ⟨150, 900, 10⟩ ⟨150, 900, 10, [], none, none⟩),
          [("/p/proj/a.jsonl", ⟨150, 900, 10, [], none, none⟩)], false) ∧
      assembleAll 1000 (fun _ => none) "-h" "/p"
          (assembleAll 1000 (fun _ => none) "-h" "/p"
            [("/p/proj/a.jsonl", ⟨150, 900, 10, [], none, none⟩)]
            [("proj", ⟨"a.jsonl", ⟨150, 900, 10⟩, []⟩)]).2.1
          [("proj", ⟨"a.jsonl", ⟨150, 900, 10⟩, []⟩)] =
        ((assembleAll 1000 (fun _ => none) "-h" "/p"
            [("/p/proj/a.jsonl", ⟨150, 900, 10, [], none, none⟩)]
            [("proj", ⟨"a.jsonl", ⟨150, 900, 10⟩, []⟩)]).1,
          (assembleAll 1000 (fun _ => none) "-h" "/p"
            [("/p/proj/a.jsonl", ⟨150, 900, 10, [], none, none⟩)]
            [("proj", ⟨"a.jsonl", ⟨150, 900, 10⟩, []⟩)]).2.1, 0) :=
  cache_hit_no_reread_and_idempotent 1000 (fun _ => none) "-h" "/p" "proj"
    [("/p/proj/a.jsonl", ⟨150, 900, 10, [], none, none⟩)]
    ⟨"a.jsonl", ⟨150, 900, 10⟩, []⟩ ⟨150, 900, 10, [], none, none⟩
    [("proj", ⟨"a.jsonl", ⟨150, 900, 10⟩, []⟩)]
    (by decide) (by decide) (by decide) (by decide) rfl rfl (by decide)

end Orchestra
